import Mathlib

/-!
Verification development for the mp3 organizer program
(`mp3_organizer.py`).

The program walks a source directory tree, and for every regular file
whose extension is `.mp3` (case-insensitively), it reads one ID3 tag
(artist/album/year/genre), derives a destination bucket directory from
the tag value, and copies the file there, counting successful and
failed copies.

The shallow embedding below mirrors the source:
* string sanitization (`"_".join(value.split())`) over `List Char`;
* `os.path.splitext`'s extension component and the `.mp3` test;
* `os.path.join` (POSIX) and the bucket path;
* the recursive `os.path.walk` traversal over an inductive directory
  tree, with the per-file try/except boundary and the two counters;
* the destination directory state as a map keyed by (bucket, filename);
* the CLI option checks of `main` and a small filesystem model for the
  constructor's `os.mkdir` call.

External fallible calls inside `_add_file` (mutagen parsing, `mkdir`,
`shutil.copy`) are abstracted by a per-file outcome oracle: each file
carries the resolved value of the configured tag and an optional
failure reason (`none` = the per-file handling succeeds, `some r` =
some step raises an exception rendered as `r`).
-/

namespace MP3Org

/-- Python whitespace characters, as recognized by `str.split()` and
`str.strip()` (space, tab, newline, carriage return, vertical tab,
form feed). -/
def pySpace (c : Char) : Bool :=
  c == ' ' || c == '\t' || c == '\n' || c == '\r' ||
    c == Char.ofNat 11 || c == Char.ofNat 12

/-- Worker for Python's `str.split()` with no argument: split on runs
of whitespace, dropping empty pieces. `acc` is the current word,
reversed. -/
def splitAux : List Char → List Char → List (List Char)
  | [], acc => if acc = [] then [] else [acc.reverse]
  | c :: rest, acc =>
    if pySpace c then
      if acc = [] then splitAux rest [] else acc.reverse :: splitAux rest []
    else splitAux rest (c :: acc)

/-- Python's `value.split()` (no argument). -/
def pySplit (cs : List Char) : List (List Char) := splitAux cs []

/-- Python's `"_".join(words)`. -/
def joinUnderscore (words : List (List Char)) : List Char :=
  List.intercalate ['_'] words

/-- Line 44 of the source: `tag_value = "_".join(tag_value.split())`. -/
def sanitizeTag (s : String) : String := ⟨joinUnderscore (pySplit s.data)⟩

/-- Lines 43-44: `short_tags.get(self.tag, [u'unknown'])[0]` followed by
the whitespace sanitization.  `tagv` is the optional value of the
configured tag in the file's metadata (first value when several are
stored, per the extraction collaborator's contract). -/
def bucketOf (tagv : Option String) : String := sanitizeTag (tagv.getD "unknown")

/-- Python's `s.strip()` on the character list: drop leading, then
trailing, whitespace. -/
def stripWs (cs : List Char) : List Char :=
  ((cs.dropWhile pySpace).reverse.dropWhile pySpace).reverse

/-- Python's `s.strip()`. -/
def pyStrip (s : String) : String := ⟨stripWs s.data⟩

/-- Modelled from the spec: "bucket = raw value with internal whitespace
runs replaced by a single underscore each" — leading and trailing
whitespace is not internal, so it is left in place; only the runs
between words become underscores.  Used to compare the spec's wording
with the source's `"_".join(value.split())`. -/
def specInternalCollapse (cs : List Char) : List Char :=
  cs.takeWhile pySpace ++ joinUnderscore (pySplit cs) ++
    (if (cs.dropWhile pySpace).isEmpty then []
     else (cs.reverse.takeWhile pySpace).reverse)

/-- The basename of a POSIX path: everything after the last `/`. -/
def afterLastSep (p : List Char) : List Char :=
  (p.reverse.takeWhile (fun c => c != '/')).reverse

/-- Split a basename at its last dot, returning the part before the
dot and the part from the dot on; `none` when there is no dot. -/
def lastDotSplit : List Char → Option (List Char × List Char)
  | [] => none
  | c :: rest =>
    match lastDotSplit rest with
    | some (pre, post) => some (c :: pre, post)
    | none => if c = '.' then some ([], c :: rest) else none

/-- The extension component of `os.path.splitext`: the suffix from the
last dot of the basename, unless every character before that dot is
itself a dot (so `".mp3"` and `"..mp3"` have extension `""`). -/
def splitextExt (p : List Char) : List Char :=
  match lastDotSplit (afterLastSep p) with
  | none => []
  | some (pre, post) => if pre.any (fun c => c != '.') then post else []

/-- Line 69 of the source:
`len(entry_ext) > 0 and entry_ext.lower() == '.mp3'`. -/
def isMp3Path (p : List Char) : Bool :=
  let e := splitextExt p
  decide (0 < e.length) && (e.map Char.toLower == ['.', 'm', 'p', '3'])

/-- POSIX `os.path.join` for two components. -/
def pyPathJoin (a b : String) : String :=
  if b.data.head? = some '/' then b
  else if a = "" ∨ a.data.getLast? = some '/' then a ++ b
  else a ++ "/" ++ b

/-- Strip trailing slashes: two directory paths denote the same
directory precisely when they agree after this normalization (for the
slash-terminated paths `os.path.join` produces from an empty last
component). -/
def stripSlashes (s : String) : String :=
  ⟨(s.data.reverse.dropWhile (fun c => c == '/')).reverse⟩

/-- A directory of the source tree, represented by its list of entries
in the order the filesystem reports them to `os.path.walk`.  A `file`
entry carries its name, the resolved value of the configured tag in
its metadata (`none` = the tag is absent), and the per-file outcome
oracle (`none` = the handling of this file succeeds, `some r` = some
step of `_add_file` raises an exception rendered as `r`).  A `dir`
entry carries its name and its own entry list (the subtree). -/
inductive EntryList : Type where
  | nil : EntryList
  | file : String → Option String → Option String → EntryList → EntryList
  | dir : String → EntryList → EntryList → EntryList

/-- A scanned `.mp3` file as the walk callback sees it: its absolute
path, its entry name, its resolved tag value and its outcome oracle. -/
structure PFile where
  path : String
  name : String
  tagv : Option String
  res : Option String
deriving DecidableEq

/-- The organizer's mutable state: the two counters `copied_files` and
`copy_fails`, the lines written to standard output and standard error,
and the contents of the destination tree as a map from
(bucket directory name, file name) to the source path last copied
there. -/
structure RunSt where
  copied_files : Nat
  copy_fails : Nat
  out : List String
  err : List String
  destfs : (String × String) → Option String

/-- Point update of a finite map: later writes to the same key replace
earlier ones (the overwrite semantics of `shutil.copy`). -/
def override {K V : Type} [DecidableEq K] (g : K → Option V) (k : K) (v : V) :
    K → Option V :=
  fun k' => if k' = k then some v else g k'

/-- Line 66: `os.path.abspath(os.path.join(dir_name, entry))`.  Walked
directory names are already absolute and normalized, so `abspath` is
the identity and only the join remains. -/
def entryPath (dname ename : String) : String := pyPathJoin dname ename

/-- The body of the per-file try/except in `_walk_callback`
(lines 70-75) together with `_add_file` (lines 38-50): on success,
write the confirmation line, record the copy in the destination map
and increment `copied_files`; on an exception, write the warning line
to standard error and increment `copy_fails`. -/
def addFileStep (dest_dir : String) (f : PFile) (st : RunSt) : RunSt :=
  match f.res with
  | some reason =>
    { st with
      copy_fails := st.copy_fails + 1,
      err := st.err ++
        ["Cannot copy file " ++ f.path ++ " (reason: " ++ reason ++ ")\n"] }
  | none =>
    let b := bucketOf f.tagv
    { st with
      copied_files := st.copied_files + 1,
      out := st.out ++
        ["Copied " ++ f.path ++ " to " ++ pyPathJoin dest_dir b ++ " \n"],
      destfs := override st.destfs (b, f.name) f.path }

/-- Process a flat list of scanned `.mp3` files in order. -/
def runList (dest_dir : String) : List PFile → RunSt → RunSt
  | [], st => st
  | f :: rest, st => runList dest_dir rest (addFileStep dest_dir f st)

/-- The loop of `_walk_callback` (lines 65-75): directories fail the
`os.path.isfile` test and are skipped; files are handled when the
extension test of line 69 passes. -/
def walkEntries (dest_dir dname : String) : EntryList → RunSt → RunSt
  | .nil, st => st
  | .file n tv r rest, st =>
    walkEntries dest_dir dname rest
      (if isMp3Path (entryPath dname n).data
       then addFileStep dest_dir ⟨entryPath dname n, n, tv, r⟩ st
       else st)
  | .dir _ _ rest, st => walkEntries dest_dir dname rest st

/-- The recursion of `os.path.walk` into the subdirectories: for each
`dir` entry, in order, the callback runs on the subdirectory's own
entries and then the walk recurses into its subdirectories. -/
def walkDirs (dest_dir dname : String) : EntryList → RunSt → RunSt
  | .nil, st => st
  | .file _ _ _ rest, st => walkDirs dest_dir dname rest st
  | .dir n sub rest, st =>
    walkDirs dest_dir dname rest
      (walkDirs dest_dir (entryPath dname n) sub
        (walkEntries dest_dir (entryPath dname n) sub st))

/-- `os.path.walk(dname, _walk_callback, organizer)` (line 79): the
callback runs on this directory's entry list first, then the walk
recurses into each subdirectory, in order. -/
def walkTree (dest_dir dname : String) (es : EntryList) (st : RunSt) : RunSt :=
  walkDirs dest_dir dname es (walkEntries dest_dir dname es st)

/-- The qualifying files among one directory's own entries, in order. -/
def entriesMp3s (dname : String) : EntryList → List PFile
  | .nil => []
  | .file n tv r rest =>
    (if isMp3Path (entryPath dname n).data
     then [⟨entryPath dname n, n, tv, r⟩] else []) ++ entriesMp3s dname rest
  | .dir _ _ rest => entriesMp3s dname rest

/-- The qualifying files of the subdirectories, in walk order. -/
def dirsMp3s (dname : String) : EntryList → List PFile
  | .nil => []
  | .file _ _ _ rest => dirsMp3s dname rest
  | .dir n sub rest =>
    (entriesMp3s (entryPath dname n) sub ++ dirsMp3s (entryPath dname n) sub) ++
      dirsMp3s dname rest

/-- The scanned `.mp3` files of a tree, in the order `os.path.walk`
reaches them: the qualifying files of the directory itself first, then
those of the subdirectories, recursively. -/
def treeMp3s (dname : String) (es : EntryList) : List PFile :=
  entriesMp3s dname es ++ dirsMp3s dname es

/-- Lines 80-82 of `run`: always write the copied-count line, and the
failed-count line only when `copy_fails > 0`. -/
def summaryLines (copied fails : Nat) : List String :=
  ["Copied " ++ toString copied ++ " files\n"] ++
    (if 0 < fails then ["Failed to copy " ++ toString fails ++ " files !\n"]
     else [])

/-- The whole `run` method (lines 77-82): walk the source tree, then
append the summary to standard output. -/
def runMethod (dest_dir source_dir : String) (t : EntryList) (st : RunSt) : RunSt :=
  let fin := walkTree dest_dir source_dir t st
  { fin with out := fin.out ++ summaryLines fin.copied_files fin.copy_fails }

/-- Line 115: `valid_tags = set(['artist', 'album', 'year', 'genre'])`. -/
def validTags : List String := ["artist", "album", "year", "genre"]

/-- Python truthiness of an optional CLI string: `not options.x` holds
when the option is missing or the empty string. -/
def pyFalsy (o : Option String) : Bool := o.getD "" == ""

def srcMissingMsg : String := "Source directory not specified.\n"

def destMissingMsg : String := "Destination directory not specified.\n"

def tagMissingMsg : String := "Tag not specified.\n"

def invalidTagMsg : String := "An invalid tag was specified.\n"

def seeHelpMsg : String := "See the help (--help option).\n"

/-- The observable outcome of `main` up to the construction of the
organizer: either the process exits with the given standard-error
lines and exit code before touching the filesystem, or it constructs
`MP3Organizer(source_dir, dest_dir, tag)` (whose constructor may
create `dest_dir`) and runs it. -/
inductive MainOut : Type where
  | exited : List String → Nat → MainOut
  | ran : String → String → String → MainOut
deriving DecidableEq

/-- Whether the outcome reaches the organizer constructor, the only
place any filesystem mutation can happen. -/
def touchesFs : MainOut → Bool
  | .exited _ _ => false
  | .ran _ _ _ => true

/-- The option checks of `main` (lines 100-125), in source order. -/
def mainModel (src dst tag : Option String) : MainOut :=
  if pyFalsy src then .exited [srcMissingMsg, seeHelpMsg] 1
  else if pyFalsy dst then .exited [destMissingMsg, seeHelpMsg] 1
  else if pyFalsy tag then .exited [tagMissingMsg, seeHelpMsg] 1
  else if tag.getD "" ∈ validTags then
    .ran (src.getD "") (dst.getD "") (tag.getD "")
  else .exited [invalidTagMsg, seeHelpMsg] 1

/-- The standard-error lines of a `main` outcome (empty when the
organizer is reached before any further output). -/
def stderrOf : MainOut → List String
  | .exited msgs _ => msgs
  | .ran _ _ _ => []

/-- Paths as component lists; a filesystem is the list of directories
that exist. -/
abbrev FS : Type := List (List String)

/-- `os.mkdir`: single-level, non-recursive — it fails when the parent
directory does not exist, and also when the path itself already
exists; otherwise it adds exactly the one directory. -/
def osMkdir (fs : FS) (p : List String) : Except String FS :=
  if p.dropLast ∈ fs then
    if p ∈ fs then .error "FileExistsError" else .ok (p :: fs)
  else .error "FileNotFoundError"

/-- Lines 35-36 of the constructor:
`if not os.path.exists(self.dest_dir): os.mkdir(self.dest_dir)`. -/
def organizerInitFS (fs : FS) (dest : List String) : Except String FS :=
  if dest ∈ fs then .ok fs else osMkdir fs dest

/-- Apply a list of point updates to a map, first to last. -/
def applyAll {K V : Type} [DecidableEq K] :
    List (K × V) → (K → Option V) → K → Option V
  | [], g => g
  | kv :: rest, g => applyAll rest (override g kv.1 kv.2)

/-- The last value bound to a key by a list of updates. -/
def lastLookup {K V : Type} [DecidableEq K] : List (K × V) → K → Option V
  | [], _ => none
  | kv :: rest, k =>
    match lastLookup rest k with
    | some v => some v
    | none => if kv.1 = k then some kv.2 else none

/-- The destination-map updates a list of scanned files performs: one
per successful copy, keyed by (bucket, file name), overwriting. -/
def updListOf (l : List PFile) : List ((String × String) × String) :=
  l.filterMap (fun f =>
    match f.res with
    | none => some ((bucketOf f.tagv, f.name), f.path)
    | some _ => none)

/-- The final destination map of a run started on an empty-counter
state over destination contents `d`. -/
def runAssign (dest_dir dname : String) (t : EntryList)
    (d : (String × String) → Option String) : (String × String) → Option String :=
  (walkTree dest_dir dname t
    { copied_files := 0, copy_fails := 0, out := [], err := [], destfs := d }).destfs

/-- Modelled from the spec: the bucket name exactly as the spec words
it — "unknown" when the attribute is absent, otherwise the raw value
with each internal run of whitespace replaced by a single underscore
(leading and trailing whitespace is not internal, so it stays). -/
def specBucketClaim : Option String → String
  | none => "unknown"
  | some v => ⟨specInternalCollapse v.data⟩

/-- Modelled from the spec, amended: "unknown" when the attribute is
absent, otherwise the raw value with leading and trailing whitespace
removed and each internal run of whitespace replaced by a single
underscore. -/
def specBucketAmended : Option String → String
  | none => "unknown"
  | some v => ⟨specInternalCollapse (stripWs v.data)⟩

/-- Membership of a regular-file entry (with its tag value and outcome
oracle) in one directory's entry list. -/
def listHasFile : EntryList → String → Option String → Option String → Prop
  | .nil, _, _, _ => False
  | .file n' tv' r' rest, n, tv, r =>
    (n' = n ∧ tv' = tv ∧ r' = r) ∨ listHasFile rest n tv r
  | .dir _ _ rest, n, tv, r => listHasFile rest n tv r

/-- Membership of a subdirectory entry in one directory's entry list. -/
def listHasDir : EntryList → String → EntryList → Prop
  | .nil, _, _ => False
  | .file _ _ _ rest, d, sub => listHasDir rest d sub
  | .dir n' sub' rest, d, sub => (n' = d ∧ sub' = sub) ∨ listHasDir rest d sub

/-- The file named `n` lives in the tree at the end of the chain of
subdirectory names `ds`, at any nesting depth. -/
inductive FileAt :
    EntryList → List String → String → Option String → Option String → Prop where
  | here {es : EntryList} {n : String} {tv r : Option String} :
      listHasFile es n tv r → FileAt es [] n tv r
  | there {es sub : EntryList} {d : String} {ds : List String} {n : String}
      {tv r : Option String} :
      listHasDir es d sub → FileAt sub ds n tv r → FileAt es (d :: ds) n tv r

/-- The absolute path of the file named `n` reached from `dname`
through the subdirectory chain `ds`. -/
def pathAt (dname : String) : List String → String → String
  | [], n => entryPath dname n
  | d :: ds, n => pathAt (entryPath dname d) ds n

/-- A two-level source tree: one subdirectory holding one tagged
`.mp3` file. -/
def demoTree : EntryList :=
  .dir "sub" (.file "song.mp3" (some "Queen") none .nil) .nil

theorem runList_append (dd : String) (a b : List PFile) (st : RunSt) :
    runList dd (a ++ b) st = runList dd b (runList dd a st) := by
  induction a generalizing st with
  | nil => rfl
  | cons f rest ih => simp [runList, ih]

theorem addFileStep_counts (dd : String) (f : PFile) (st : RunSt) :
    (addFileStep dd f st).copied_files + (addFileStep dd f st).copy_fails =
      st.copied_files + st.copy_fails + 1 := by
  cases h : f.res <;> simp [addFileStep, h] <;> omega

theorem runList_counts (dd : String) (l : List PFile) (st : RunSt) :
    (runList dd l st).copied_files + (runList dd l st).copy_fails =
      st.copied_files + st.copy_fails + l.length := by
  induction l generalizing st with
  | nil => simp [runList]
  | cons f rest ih =>
    simp only [runList, List.length_cons, ih, addFileStep_counts]
    omega

theorem runList_fails (dd : String) (l : List PFile) (st : RunSt) :
    (runList dd l st).copy_fails =
      st.copy_fails + (l.filter (fun f => f.res.isSome)).length := by
  induction l generalizing st with
  | nil => simp [runList]
  | cons f rest ih =>
    cases h : f.res <;>
      (simp [runList, ih, addFileStep, h, List.filter_cons]; try omega)

theorem runList_copied (dd : String) (l : List PFile) (st : RunSt) :
    (runList dd l st).copied_files =
      st.copied_files + (l.filter (fun f => f.res.isNone)).length := by
  induction l generalizing st with
  | nil => simp [runList]
  | cons f rest ih =>
    cases h : f.res <;>
      (simp [runList, ih, addFileStep, h, List.filter_cons]; try omega)

theorem runList_destfs (dd : String) (l : List PFile) (st : RunSt) :
    (runList dd l st).destfs = applyAll (updListOf l) st.destfs := by
  induction l generalizing st with
  | nil => rfl
  | cons f rest ih =>
    cases h : f.res <;>
      simp [runList, ih, addFileStep, h, updListOf, List.filterMap_cons, applyAll]

theorem applyAll_lookup {K V : Type} [DecidableEq K]
    (l : List (K × V)) (g : K → Option V) (k : K) :
    applyAll l g k =
      match lastLookup l k with
      | some v => some v
      | none => g k := by
  induction l generalizing g with
  | nil => simp [applyAll, lastLookup]
  | cons kv rest ih =>
    simp only [applyAll, lastLookup, ih]
    cases h : lastLookup rest k with
    | some v => simp
    | none =>
      by_cases hk : kv.1 = k
      · subst hk
        simp [override]
      · have hk2 : ¬k = kv.1 := fun hh => hk hh.symm
        simp [override, hk, hk2]

theorem applyAll_idem {K V : Type} [DecidableEq K]
    (l : List (K × V)) (g : K → Option V) :
    applyAll l (applyAll l g) = applyAll l g := by
  funext k
  cases h : lastLookup l k <;> simp [applyAll_lookup, h]

theorem walkEntries_eq_runList (dd dn : String) (es : EntryList) (st : RunSt) :
    walkEntries dd dn es st = runList dd (entriesMp3s dn es) st := by
  induction es generalizing st with
  | nil => rfl
  | file n tv r rest ih =>
    rw [walkEntries, entriesMp3s, runList_append, ih]
    by_cases h : isMp3Path (entryPath dn n).data <;> simp [h, runList]
  | dir n sub rest ihsub ih =>
    rw [walkEntries, entriesMp3s, ih]

theorem walkDirs_eq_runList (dd : String) (es : EntryList) :
    ∀ dn st, walkDirs dd dn es st = runList dd (dirsMp3s dn es) st := by
  induction es with
  | nil => intro dn st; rfl
  | file n tv r rest ih =>
    intro dn st
    rw [walkDirs, dirsMp3s, ih]
  | dir n sub rest ihsub ih =>
    intro dn st
    rw [walkDirs, dirsMp3s, runList_append, runList_append, ih, ihsub,
      walkEntries_eq_runList]

theorem walkTree_eq_runList (dd dn : String) (t : EntryList) (st : RunSt) :
    walkTree dd dn t st = runList dd (treeMp3s dn t) st := by
  rw [walkTree, treeMp3s, runList_append, walkEntries_eq_runList,
    walkDirs_eq_runList]

theorem splitAux_allWs (l : List Char) (acc : List Char)
    (h : ∀ c ∈ l, pySpace c = true) :
    splitAux l acc = if acc = [] then [] else [acc.reverse] := by
  induction l generalizing acc with
  | nil => rfl
  | cons c rest ih =>
    have hc : pySpace c = true := h c (by simp)
    have hrest : ∀ x ∈ rest, pySpace x = true := fun x hx => h x (by simp [hx])
    by_cases ha : acc = [] <;> simp [splitAux, hc, ha, ih [] hrest]

theorem splitAux_append_allWs (l sfx : List Char) (acc : List Char)
    (h : ∀ c ∈ sfx, pySpace c = true) :
    splitAux (l ++ sfx) acc = splitAux l acc := by
  induction l generalizing acc with
  | nil =>
    simp only [List.nil_append]
    rw [splitAux_allWs sfx acc h]
    rfl
  | cons c rest ih =>
    by_cases hc : pySpace c
    · by_cases ha : acc = [] <;> simp [splitAux, hc, ha, ih]
    · simp [splitAux, hc, ih]

theorem splitAux_dropWhile (l : List Char) :
    splitAux (l.dropWhile pySpace) [] = splitAux l [] := by
  induction l with
  | nil => rfl
  | cons c rest ih =>
    by_cases hc : pySpace c <;> simp [List.dropWhile_cons, splitAux, hc, ih]

theorem takeWhile_dropWhile_self {α : Type} (p : α → Bool) (l : List α) :
    (l.dropWhile p).takeWhile p = [] := by
  induction l with
  | nil => rfl
  | cons c rest ih =>
    by_cases hc : p c <;> simp [List.dropWhile_cons, List.takeWhile_cons, hc, ih]

theorem takeWhile_nil_of_append {α : Type} (p : α → Bool) (x y : List α)
    (h : ((x ++ y).takeWhile p) = []) : x.takeWhile p = [] := by
  cases x with
  | nil => rfl
  | cons c rest =>
    simp only [List.cons_append, List.takeWhile_cons] at h ⊢
    by_cases hc : p c
    · simp [hc] at h
    · simp [hc]

/-- Decompose a list as its whitespace-stripped-right part followed by
its trailing whitespace. -/
theorem stripRight_decomp (p : Char → Bool) (m : List Char) :
    m = (m.reverse.dropWhile p).reverse ++ (m.reverse.takeWhile p).reverse := by
  have h := List.takeWhile_append_dropWhile (p := p) (l := m.reverse)
  calc m = m.reverse.reverse := (List.reverse_reverse m).symm
    _ = (m.reverse.takeWhile p ++ m.reverse.dropWhile p).reverse := by rw [h]
    _ = (m.reverse.dropWhile p).reverse ++ (m.reverse.takeWhile p).reverse := by
        rw [List.reverse_append]

theorem pySplit_stripWs (cs : List Char) : pySplit (stripWs cs) = pySplit cs := by
  have hws : ∀ c ∈ ((cs.dropWhile pySpace).reverse.takeWhile pySpace).reverse,
      pySpace c = true := by
    intro c hc
    rw [List.mem_reverse] at hc
    exact List.mem_takeWhile_imp hc
  have hdec := stripRight_decomp pySpace (cs.dropWhile pySpace)
  unfold pySplit stripWs
  calc splitAux ((cs.dropWhile pySpace).reverse.dropWhile pySpace).reverse [] =
      splitAux (((cs.dropWhile pySpace).reverse.dropWhile pySpace).reverse ++
        ((cs.dropWhile pySpace).reverse.takeWhile pySpace).reverse) [] :=
        (splitAux_append_allWs _ _ _ hws).symm
    _ = splitAux (cs.dropWhile pySpace) [] := by rw [← hdec]
    _ = splitAux cs [] := splitAux_dropWhile cs

/-- The stripped value starts with no whitespace. -/
theorem takeWhile_stripWs (cs : List Char) :
    (stripWs cs).takeWhile pySpace = [] := by
  have hdec := stripRight_decomp pySpace (cs.dropWhile pySpace)
  have hm : ((cs.dropWhile pySpace).takeWhile pySpace) = [] :=
    takeWhile_dropWhile_self pySpace cs
  unfold stripWs
  exact takeWhile_nil_of_append pySpace _ _ (by rw [← hdec]; exact hm)

/-- The stripped value ends with no whitespace. -/
theorem takeWhile_reverse_stripWs (cs : List Char) :
    (stripWs cs).reverse.takeWhile pySpace = [] := by
  unfold stripWs
  rw [List.reverse_reverse]
  exact takeWhile_dropWhile_self pySpace _

theorem mem_entriesMp3s (dn : String) (es : EntryList) (n : String)
    (tv r : Option String) (h : listHasFile es n tv r)
    (hm : isMp3Path (entryPath dn n).data = true) :
    (⟨entryPath dn n, n, tv, r⟩ : PFile) ∈ entriesMp3s dn es := by
  induction es with
  | nil => exact absurd h (by simp [listHasFile])
  | file n' tv' r' rest ih =>
    simp only [listHasFile] at h
    rcases h with ⟨rfl, rfl, rfl⟩ | h
    · simp only [entriesMp3s, hm, if_pos]
      exact List.mem_append_left _ (by simp)
    · exact List.mem_append_right _ (ih h)
  | dir n' sub rest ihsub ih =>
    simp only [listHasFile] at h
    simp only [entriesMp3s]
    exact ih h

theorem sub_mem_dirsMp3s (dn d : String) (sub es : EntryList)
    (h : listHasDir es d sub) (x : PFile)
    (hx : x ∈ treeMp3s (entryPath dn d) sub) : x ∈ dirsMp3s dn es := by
  induction es with
  | nil => exact absurd h (by simp [listHasDir])
  | file n' tv' r' rest ih =>
    simp only [listHasDir] at h
    simp only [dirsMp3s]
    exact ih h
  | dir n' sub' rest ihsub ih =>
    simp only [listHasDir] at h
    rcases h with ⟨rfl, rfl⟩ | h
    · simp only [dirsMp3s]
      rw [treeMp3s] at hx
      exact List.mem_append_left _ hx
    · simp only [dirsMp3s]
      exact List.mem_append_right _ (ih h)

/-- C1: over any source tree, the walk leaves
`copied + failed = number of scanned regular files whose extension,
compared case-insensitively, equals ".mp3"` (`treeMp3s` collects
exactly the entries passing the line-69 extension test; other files
and directories contribute nothing to either counter). -/
theorem copied_plus_failed_eq_mp3_count (dd dn : String) (t : EntryList)
    (st : RunSt) :
    (walkTree dd dn t st).copied_files + (walkTree dd dn t st).copy_fails =
      st.copied_files + st.copy_fails + (treeMp3s dn t).length := by
  rw [walkTree_eq_runList]
  exact runList_counts dd _ st

/-- C2: the walk is a total function — no per-file outcome aborts it —
and every per-file error is absorbed at the file-handling boundary as
exactly one increment of the failed counter, while every success adds
exactly one to the copied counter; files after a failure are still
processed. -/
theorem per_file_errors_absorbed (dd dn : String) (t : EntryList) (st : RunSt) :
    (walkTree dd dn t st).copy_fails =
      st.copy_fails + ((treeMp3s dn t).filter (fun f => f.res.isSome)).length ∧
    (walkTree dd dn t st).copied_files =
      st.copied_files +
        ((treeMp3s dn t).filter (fun f => f.res.isNone)).length := by
  rw [walkTree_eq_runList]
  exact ⟨runList_fails dd _ st, runList_copied dd _ st⟩

/-- C3, counterexample: the claim computes the bucket as the raw value
with only internal whitespace runs replaced, which keeps outer
whitespace; the code's bucket for the value " Queen " is "Queen",
not " Queen ". -/
theorem bucket_keeps_outer_ws_counterexample :
    bucketOf (some " Queen ") ≠ specBucketClaim (some " Queen ") ∧
    bucketOf (some " Queen ") = "Queen" ∧
    specBucketClaim (some " Queen ") = " Queen " := by decide

/-- C3, amended: the bucket name is "unknown" when the attribute is
absent; otherwise it is the raw value with leading and trailing
whitespace removed and each internal run of whitespace replaced by a
single underscore. -/
theorem bucket_strip_then_collapse (tagv : Option String) :
    bucketOf tagv = specBucketAmended tagv := by
  cases tagv with
  | none => decide
  | some v =>
    show sanitizeTag v = (⟨specInternalCollapse (stripWs v.data)⟩ : String)
    unfold sanitizeTag specInternalCollapse
    rw [takeWhile_stripWs, pySplit_stripWs, takeWhile_reverse_stripWs]
    simp

/-- C4: running the organizer a second time over the same tree with
the same destination and attribute leaves the destination assignment
unchanged — every file copies into the same bucket under the same
name and overwrites its first copy instead of duplicating it. -/
theorem organizer_run_idempotent (dd dn : String) (t : EntryList)
    (d : (String × String) → Option String) :
    runAssign dd dn t (runAssign dd dn t d) = runAssign dd dn t d := by
  unfold runAssign
  rw [walkTree_eq_runList, runList_destfs, walkTree_eq_runList, runList_destfs]
  exact applyAll_idem _ d

/-- C5, counterexample: an invocation whose `--tag` value is
"composer" (not a valid tag) but which omits `--source_dir` exits
nonzero with the missing-source error, so the claimed invalid-tag
error line is not printed for every invocation with an invalid tag. -/
theorem invalid_tag_message_counterexample :
    "composer" ∉ validTags ∧
    mainModel none (some "dest") (some "composer") =
      .exited [srcMissingMsg, seeHelpMsg] 1 ∧
    invalidTagMsg ∉ stderrOf (mainModel none (some "dest") (some "composer")) := by
  decide

/-- C5, amended: every invocation whose `--tag` value is not one of
artist, album, year, genre exits with status 1 before any filesystem
mutation — dest_dir is never created — and when the source and
destination flags are provided (nonempty) and the tag value is
nonempty, the error printed is the invalid-tag line. -/
theorem invalid_tag_never_reaches_fs (s d : Option String) (t : String)
    (h : t ∉ validTags) :
    (∃ msgs, mainModel s d (some t) = .exited msgs 1) ∧
    touchesFs (mainModel s d (some t)) = false ∧
    (∀ s0 d0 : String, s0 ≠ "" → d0 ≠ "" → t ≠ "" →
      mainModel (some s0) (some d0) (some t) =
        .exited [invalidTagMsg, seeHelpMsg] 1) := by
  have key : ∀ s' d' : Option String,
      ∃ msgs, mainModel s' d' (some t) = .exited msgs 1 := by
    intro s' d'
    unfold mainModel
    by_cases h1 : pyFalsy s' <;> by_cases h2 : pyFalsy d' <;>
      by_cases h3 : pyFalsy (some t) <;> simp [h1, h2, h3, h]
  refine ⟨key s d, ?_, ?_⟩
  · obtain ⟨msgs, hm⟩ := key s d
    rw [hm]
    rfl
  · intro s0 d0 hs hd ht
    have h1 : pyFalsy (some s0) = false := by simp [pyFalsy, hs]
    have h2 : pyFalsy (some d0) = false := by simp [pyFalsy, hd]
    have h3 : pyFalsy (some t) = false := by simp [pyFalsy, ht]
    simp [mainModel, h1, h2, h3, h]

theorem invalid_tag_never_reaches_fs_witness :
    "composer" ∉ validTags ∧
    mainModel (some "src") (some "dest") (some "composer") =
      .exited [invalidTagMsg, seeHelpMsg] 1 ∧
    touchesFs (mainModel (some "src") (some "dest") (some "composer")) = false :=
  ⟨by decide,
    (invalid_tag_never_reaches_fs (some "src") (some "dest") "composer"
      (by decide)).2.2 "src" "dest" (by decide) (by decide) (by decide),
    (invalid_tag_never_reaches_fs (some "src") (some "dest") "composer"
      (by decide)).2.1⟩

/-- C6: after traversal the run emits the copied-count line, followed
by the failed-count line exactly when the failure count is nonzero:
one summary line when `copy_fails = 0`, two otherwise. -/
theorem summary_copied_then_failed_if_nonzero (dd dn : String) (t : EntryList)
    (st : RunSt) :
    (runMethod dd dn t st).out =
      (walkTree dd dn t st).out ++
        (if (walkTree dd dn t st).copy_fails = 0
         then ["Copied " ++ toString (walkTree dd dn t st).copied_files ++
                " files\n"]
         else ["Copied " ++ toString (walkTree dd dn t st).copied_files ++
                " files\n",
               "Failed to copy " ++ toString (walkTree dd dn t st).copy_fails ++
                " files !\n"]) := by
  unfold runMethod summaryLines
  cases h : (walkTree dd dn t st).copy_fails with
  | zero => simp [h]
  | succ k => simp [h]

/-- C7: the constructor creates `dest_dir` when absent and raises no
error when it already exists; the creation is a single-level,
non-recursive `mkdir`, so when the parent of `dest_dir` does not
exist, construction fails (before `run` is ever invoked). -/
theorem dest_dir_creation (fs : FS) (dest : List String) :
    organizerInitFS fs dest =
      if dest ∈ fs then .ok fs
      else if dest.dropLast ∈ fs then .ok (dest :: fs)
      else .error "FileNotFoundError" := by
  unfold organizerInitFS osMkdir
  by_cases h1 : dest ∈ fs <;> by_cases h2 : dest.dropLast ∈ fs <;>
    simp [h1, h2]

/-- C8: the walk is recursive — every regular file with a qualifying
extension, at any nesting depth along any chain of subdirectories, is
among the scanned files the walk processes. -/
theorem walk_reaches_every_depth (dn : String) (es : EntryList)
    (ds : List String) (n : String) (tv r : Option String)
    (h : FileAt es ds n tv r)
    (hm : isMp3Path (pathAt dn ds n).data = true) :
    (⟨pathAt dn ds n, n, tv, r⟩ : PFile) ∈ treeMp3s dn es := by
  induction h generalizing dn with
  | here hf =>
    rw [treeMp3s]
    exact List.mem_append_left _ (mem_entriesMp3s dn _ _ _ _ hf hm)
  | there hd hsub ih =>
    rw [treeMp3s]
    refine List.mem_append_right _ ?_
    exact sub_mem_dirsMp3s _ _ _ _ hd _ (ih _ (by simpa [pathAt] using hm))

theorem walk_reaches_every_depth_witness :
    FileAt demoTree ["sub"] "song.mp3" (some "Queen") none ∧
    isMp3Path (pathAt "/src" ["sub"] "song.mp3").data = true ∧
    (⟨pathAt "/src" ["sub"] "song.mp3", "song.mp3", some "Queen", none⟩ :
        PFile) ∈ treeMp3s "/src" demoTree := by
  have hat : FileAt demoTree ["sub"] "song.mp3" (some "Queen") none :=
    FileAt.there (Or.inl ⟨rfl, rfl⟩) (FileAt.here (Or.inl ⟨rfl, rfl, rfl⟩))
  exact ⟨hat, by decide,
    walk_reaches_every_depth "/src" demoTree ["sub"] "song.mp3" (some "Queen")
      none hat (by decide)⟩

/-- C9: a non-empty, all-whitespace attribute value sanitizes to the
empty bucket name, and joining the empty bucket onto `dest_dir` yields
a path denoting `dest_dir` itself, so the file is copied directly into
`dest_dir` rather than into any subdirectory. -/
theorem all_whitespace_bucket_is_empty (v : String) (d : String)
    (h1 : v ≠ "") (h2 : ∀ c ∈ v.data, pySpace c = true) :
    bucketOf (some v) = "" ∧
    stripSlashes (pyPathJoin d (bucketOf (some v))) = stripSlashes d := by
  have hb : bucketOf (some v) = "" := by
    show sanitizeTag v = ""
    unfold sanitizeTag pySplit
    rw [splitAux_allWs v.data [] h2]
    rfl
  refine ⟨hb, ?_⟩
  rw [hb]
  unfold pyPathJoin
  rw [if_neg (by decide)]
  by_cases hd : d = "" ∨ d.data.getLast? = some '/'
  · rw [if_pos hd]
    simp
  · rw [if_neg hd]
    unfold stripSlashes
    have hdata : (d ++ "/" ++ "").data = d.data ++ ['/'] := by
      simp [String.data_append]
    rw [hdata, List.reverse_append]
    simp

theorem all_whitespace_bucket_is_empty_witness :
    ((" " : String) ≠ "" ∧ ∀ c ∈ (" " : String).data, pySpace c = true) ∧
    bucketOf (some " ") = "" ∧
    stripSlashes (pyPathJoin "/dest" (bucketOf (some " "))) =
      stripSlashes "/dest" :=
  ⟨⟨by decide, by decide⟩,
    all_whitespace_bucket_is_empty " " "/dest" (by decide) (by decide)⟩

/-- C10: leading and trailing whitespace of the attribute value is
removed entirely from the bucket name, never turned into underscores:
stripping the value first changes nothing, and " Queen " yields the
bucket "Queen". -/
theorem outer_whitespace_removed :
    (∀ v : String, bucketOf (some (pyStrip v)) = bucketOf (some v)) ∧
    bucketOf (some " Queen ") = "Queen" := by
  constructor
  · intro v
    show sanitizeTag (pyStrip v) = sanitizeTag v
    unfold sanitizeTag pyStrip
    rw [show (⟨stripWs v.data⟩ : String).data = stripWs v.data from rfl]
    rw [show pySplit (stripWs v.data) = pySplit v.data from pySplit_stripWs v.data]
  · decide

example : sanitizeTag "Guns N Roses" = "Guns_N_Roses" := by decide
example : sanitizeTag " Queen " = "Queen" := by decide
example : bucketOf none = "unknown" := by decide
example : isMp3Path "/a/b/Song.MP3".data = true := by decide
example : isMp3Path "/a/b/.mp3".data = false := by decide
example : isMp3Path "/a/b/song.ogg".data = false := by decide
example : pyPathJoin "/d" "" = "/d/" := by decide

end MP3Org
